import Mathlib

/-!
Verification of the T2A assistant association and search resolution engine.

The definitions below are a shallow embedding of the Python sources:
  - `ccam_search.py`    (normalize_query, CCAMSearch.search,
                         CCAMSearch.check_compatibility, CCAMSearch.get_billing_plan)
  - `build_ccam_db.py`  (normalize_for_search, safe_str, the association-edge
                         extraction of parse_complementary_file)
  - `validate_associations.py` (validate)
  - `integrate_associations.py` (integrate)

SQLite tables are modelled as Lean lists of records; a SQL `SELECT ... WHERE
code = ?` with a unique key becomes `List.find?`, and `INSERT OR IGNORE`
becomes an explicit conditional append.  Python character classes are modelled
exactly for the ASCII range (all concrete inputs used in the theorems are
ASCII); Unicode NFKD decomposition is modelled as the identity, which is exact
on ASCII text, and combining marks are recognised by their Unicode blocks.
SQL `REAL` columns are modelled as `Option Int`: the engine only ever compares
them for order, never does arithmetic on them.
-/

namespace T2A

/-- Python regex `\s` (ASCII range): space, tab, newline, carriage return,
vertical tab, form feed.  Also the character class used by `str.strip()` and
no-argument `str.split()`. -/
def pyIsSpace (c : Char) : Bool :=
  c = ' ' || c = '\t' || c = '\n' || c = '\r' || c = '\x0b' || c = '\x0c'

/-- Python regex `\w` (ASCII range): letters, digits and the underscore. -/
def pyIsWord (c : Char) : Bool :=
  c.isAlpha || c.isDigit || c = '_'

/-- Unicode combining-mark blocks (Combining Diacritical Marks and its
extensions/supplements).  `unicodedata.combining(c) != 0` is modelled by
membership in these blocks; exact on ASCII, where there are no combining
marks. -/
def combining (c : Char) : Bool :=
  (0x300 ≤ c.toNat && c.toNat ≤ 0x36F) ||
  (0x1AB0 ≤ c.toNat && c.toNat ≤ 0x1AFF) ||
  (0x1DC0 ≤ c.toNat && c.toNat ≤ 0x1DFF) ||
  (0x20D0 ≤ c.toNat && c.toNat ≤ 0x20FF) ||
  (0xFE20 ≤ c.toNat && c.toNat ≤ 0xFE2F)

/-- Python `str.lower()` (exact on ASCII). -/
def pyLower (s : String) : String :=
  String.mk (s.data.map Char.toLower)

/-- Python `str.upper()` (exact on ASCII). -/
def pyUpper (s : String) : String :=
  String.mk (s.data.map Char.toUpper)

/-- Python `str.strip()` with no argument: drop leading and trailing
whitespace. -/
def pyStrip (s : String) : String :=
  String.mk (((s.data.dropWhile pyIsSpace).reverse.dropWhile pyIsSpace).reverse)

/-- `strip_accents` from `ccam_search.py` / `build_ccam_db.py`:
`if not text: return ""`, then NFKD-decompose and drop combining characters.
NFKD is modelled as the identity (exact on ASCII input). -/
def strip_accents (text : String) : String :=
  if text = "" then ""
  else String.mk (text.data.filter (fun c => !combining c))

/-- The `re.sub(r'[^\w\s]', ' ', text)` step: every character that is neither
a word character nor whitespace is replaced by a single space. -/
def substNonWord (s : String) : String :=
  String.mk (s.data.map (fun c => if pyIsWord c || pyIsSpace c then c else ' '))

/-- Split a character list into the maximal runs of characters that do not
satisfy `sep`, dropping separators and empty runs.  `acc` holds the current
run, reversed.  With `sep = pyIsSpace` this is Python's no-argument
`str.split()`. -/
def splitRuns (sep : Char → Bool) : List Char → List Char → List String
  | [], acc => if acc.isEmpty then [] else [String.mk acc.reverse]
  | c :: rest, acc =>
      if sep c then
        (if acc.isEmpty then [] else [String.mk acc.reverse]) ++ splitRuns sep rest []
      else
        splitRuns sep rest (c :: acc)

/-- Python no-argument `str.split()`. -/
def pySplit (s : String) : List String :=
  splitRuns pyIsSpace s.data []

/-- The token-producing core of `normalize_query` (`ccam_search.py`):
lowercase, strip, fold accents, blank out punctuation, split, and drop tokens
of length ≤ 2 unless the query produced a single token. -/
def normalizeTokens (query : String) : List String :=
  let text := strip_accents (pyStrip (pyLower query))
  let text := substNonWord text
  let tokens := pySplit text
  if tokens.length > 1 then tokens.filter (fun t => t.length > 2) else tokens

/-- `normalize_query` itself, over a possibly-null argument.  On `None` the
very first step `query.lower()` raises `AttributeError`; this is modelled as
an `Except.error`. -/
def normalize_query : Option String → Except String (List String)
  | none => Except.error "AttributeError"
  | some q => Except.ok (normalizeTokens q)

/-- `normalize_for_search` from `build_ccam_db.py`: same pipeline but the
result is the normalized string (whitespace runs collapsed to single spaces
and trimmed), not a token list.  The collapse-and-trim of
`re.sub(r'\s+', ' ', text).strip()` is expressed as joining the whitespace-
separated runs with single spaces, which is the same string. -/
def normalize_for_search (text : Option String) : String :=
  match text with
  | none => ""
  | some t =>
      if t = "" then ""
      else
        let s := substNonWord (strip_accents (pyLower t))
        String.intercalate " " (pySplit s)

/-- Python truthiness of a nullable SQL text value: `None` and `""` are
falsy. -/
def pyTruthy (o : Option String) : Bool :=
  match o with
  | none => false
  | some s => s ≠ ""

/- ## Data model -/

/-- A row of the `ccam_codes` table.  Columns that no modelled operation
reads (raw gesture text, modifiers, FG profiles, hierarchy titles, dates of
start, ...) are omitted; every column consulted by search, compatibility
checking, classification or billing-plan assembly is present. -/
structure CcamCode where
  code : String
  label : String
  labelNormalized : String
  chapterNum : Option String
  icrPublic : Option Int
  icrPrivate : Option Int
  tarifBase : Option Int
  dateEnd : Option String
deriving DecidableEq

/-- A row of the authoritative `associations` table
(primary key `(code, associated_code, activity)`). -/
structure AssocEdge where
  code : String
  associatedCode : String
  assocType : String
  activity : String
deriving DecidableEq

/-- Confidence tiers assigned by `validate_associations.py` (stored as text in
the database). -/
inductive Confidence where
  | verified
  | sameChapter
  | crossChapter
deriving DecidableEq

/-- A row of the `frequent_associations` table
(primary key `(code, associated_code)`). -/
structure FreqRow where
  code : String
  associatedCode : String
  label : Option String
  icrPublic : Option Int
  confidence : Confidence
  rank : Nat
deriving DecidableEq

/-- The database snapshot the query layer reads. -/
structure DB where
  ccamCodes : List CcamCode
  associations : List AssocEdge
  frequentAssociations : List FreqRow
deriving DecidableEq

/-- `SELECT ... FROM ccam_codes WHERE code = ?` followed by `fetchone()`:
first row with the given (primary-key) code. -/
def getCodeRow (db : DB) (code : String) : Option CcamCode :=
  db.ccamCodes.find? (fun r => r.code == code)

/- ## Search resolver (`CCAMSearch.search`) -/

/-- FTS5 tokenization of an indexed column with the default `unicode61`
tokenizer: tokens are the maximal runs of alphanumeric characters (the
underscore is a separator for FTS, unlike for `\w`). -/
def ftsTokens (s : String) : List String :=
  splitRuns (fun c => !c.isAlphanum) s.data []

/-- `ccam_fts.label_normalized MATCH "t1 t2 ..."`: every query token occurs
as a whole token of the indexed text (implicit AND). -/
def ftsMatchAll (tokens : List String) (r : CcamCode) : Bool :=
  tokens.all (fun t => (ftsTokens r.labelNormalized).contains t)

/-- `ccam_fts.label_normalized MATCH "t1 OR t2 OR ..."`: some query token
occurs as a whole token of the indexed text. -/
def ftsMatchAny (tokens : List String) (r : CcamCode) : Bool :=
  tokens.any (fun t => (ftsTokens r.labelNormalized).contains t)

/-- Drop everything up to and including the first occurrence of `pat` as a
contiguous sublist; `none` if `pat` never occurs. -/
def dropAfterFirst (pat : List Char) : List Char → Option (List Char)
  | [] => if pat.isEmpty then some [] else none
  | c :: rest =>
      if pat.isPrefixOf (c :: rest) then some ((c :: rest).drop pat.length)
      else dropAfterFirst pat rest

/-- SQL `LIKE` with the pattern `"%" + "%".join(tokens) + "%"`: the tokens
occur in the text as non-overlapping substrings, in the given order.  The
greedy leftmost scan is equivalent to the existential LIKE semantics because
consuming the earliest occurrence of a piece leaves the largest suffix for
the remaining pieces. -/
def likeChain : List Char → List String → Bool
  | _, [] => true
  | s, t :: ts =>
      match dropAfterFirst t.data s with
      | none => false
      | some rest => likeChain rest ts

/-- The `AND cc.date_end IS NULL` filter, applied only when `active_only`. -/
def activeFilter (activeOnly : Bool) (r : CcamCode) : Bool :=
  !activeOnly || r.dateEnd.isNone

/-- Strategy 1 of `search`: FTS match of all tokens, active filter, `ORDER BY
ccam_fts.rank`, `LIMIT`.  The FTS bm25 rank is internal to SQLite and is
passed in as `rankFn`; ordering is a stable sort on it (one deterministic
instantiation of SQL's underspecified tie order).  Stable sorts are modelled
by `List.insertionSort`, which is stable. -/
def tier1 (db : DB) (rankFn : CcamCode → Int) (tokens : List String)
    (limit : Nat) (activeOnly : Bool) : List CcamCode :=
  (List.insertionSort (fun a b => rankFn a ≤ rankFn b)
      (db.ccamCodes.filter
        (fun r => ftsMatchAll tokens r && activeFilter activeOnly r))).take limit

/-- Strategy 2 of `search`: same as strategy 1 but tokens joined with OR. -/
def tier2 (db : DB) (rankFn : CcamCode → Int) (tokens : List String)
    (limit : Nat) (activeOnly : Bool) : List CcamCode :=
  (List.insertionSort (fun a b => rankFn a ≤ rankFn b)
      (db.ccamCodes.filter
        (fun r => ftsMatchAny tokens r && activeFilter activeOnly r))).take limit

/-- Strategy 3 of `search`: `label_normalized LIKE '%t1%...%tn%'`, active
filter, no ORDER BY (rows come back in table order), `LIMIT`. -/
def tier3 (db : DB) (tokens : List String) (limit : Nat)
    (activeOnly : Bool) : List CcamCode :=
  (db.ccamCodes.filter
      (fun r => likeChain r.labelNormalized.data tokens &&
                activeFilter activeOnly r)).take limit

/-- The per-code association count used to enrich search results: rows of
`associations` plus rows of `frequent_associations` with this code as source
(sum of both tables, no deduplication between them). -/
def assocCount (db : DB) (code : String) : Nat :=
  (db.associations.filter (fun a => a.code == code)).length +
  (db.frequentAssociations.filter (fun f => f.code == code)).length

/-- A search result row: the catalog entry plus its association count. -/
structure SearchRow where
  entry : CcamCode
  assocs : Nat
deriving DecidableEq

deriving instance DecidableEq for Except

/-- The result-enrichment step of `search`: attach the association count to a
returned row. -/
def enrichRow (db : DB) (r : CcamCode) : SearchRow :=
  ⟨r, assocCount db r.code⟩

/-- The sequential strategy fallback of `search`, mirroring the source's
reassignments of `results`: strategy 1; strategy 2 only if the result so far
is empty and the query has more than one token; strategy 3 only if the result
is still empty. -/
def searchResults (db : DB) (rankFn : CcamCode → Int) (tokens : List String)
    (limit : Nat) (activeOnly : Bool) : List CcamCode :=
  let results := tier1 db rankFn tokens limit activeOnly
  let results :=
    if results.isEmpty && tokens.length > 1 then
      tier2 db rankFn tokens limit activeOnly
    else results
  if results.isEmpty then tier3 db tokens limit activeOnly else results

/-- `CCAMSearch.search`: normalize the query (propagating the exception a
`None` query raises), return `[]` on zero tokens, run the strategy fallback,
and enrich each returned row with its association count. -/
def search (db : DB) (rankFn : CcamCode → Int) (query : Option String)
    (limit : Nat) (activeOnly : Bool) : Except String (List SearchRow) := do
  let tokens ← normalize_query query
  if tokens.isEmpty then
    return []
  return (searchResults db rankFn tokens limit activeOnly).map (enrichRow db)

/- ## Compatibility checker (`CCAMSearch.check_compatibility`) -/

/-- An issue reported by the compatibility checker.  The display `message`
string of the source, which is derived from the other fields, is omitted. -/
inductive Issue where
  | unknownCode (code : String)
  | expiredCode (code : String)
  | hasAssociation (code1 code2 : String) (assocType : String) (activity : String)
  | ok
deriving DecidableEq

/-- The inner `for j, code2 in enumerate(codes)` loop of `check_compatibility`
for a fixed `(i, code1)`: for every later position `j`, fetch the edges in
both directions, and — when either direction is non-empty — emit one
`has_association` issue per edge of the `code1 → code2` direction (this is
exactly what the source does: the loop body iterates over `assoc12` only). -/
def pairIssues (db : DB) (codes : List String) (i : Nat) (code1 : String) :
    List Issue :=
  codes.enum.flatMap (fun q =>
    if i ≥ q.1 then []
    else
      let code2 := q.2
      let assoc12 := db.associations.filter
        (fun a => a.code == code1 && a.associatedCode == code2)
      let assoc21 := db.associations.filter
        (fun a => a.code == code2 && a.associatedCode == code1)
      if !assoc12.isEmpty || !assoc21.isEmpty then
        assoc12.map (fun a => Issue.hasAssociation code1 code2 a.assocType a.activity)
      else [])

/-- The body of the outer loop of `check_compatibility` for one `(i, code1)`:
unknown code short-circuits the pair loop (`continue`); otherwise an optional
expired issue (Python truthiness of `date_end`) followed by the pair
issues. -/
def codeIssues (db : DB) (codes : List String) (i : Nat) (code1 : String) :
    List Issue :=
  match getCodeRow db code1 with
  | none => [Issue.unknownCode code1]
  | some row =>
      (if pyTruthy row.dateEnd then [Issue.expiredCode code1] else []) ++
      pairIssues db codes i code1

/-- `CCAMSearch.check_compatibility`: uppercase the inputs, run the nested
loops, and fall back to a single `ok` issue when nothing was reported. -/
def check_compatibility (db : DB) (codes0 : List String) : List Issue :=
  let codes := codes0.map pyUpper
  let issues := codes.enum.flatMap (fun p => codeIssues db codes p.1 p.2)
  if issues.isEmpty then [Issue.ok] else issues

/- ## Billing plan assembler (`CCAMSearch.get_billing_plan`) -/

/-- An item of the authoritative (gestures / anesthesia) groups of a billing
plan.  The joined target row may be absent (`LEFT JOIN`), in which case its
columns are NULL. -/
structure PlanItem where
  code : String
  label : Option String
  icrPublic : Option Int
  icrPrivate : Option Int
  tarifBase : Option Int
  dateEnd : Option String
  expired : Bool
deriving DecidableEq

/-- An item of the frequent-associations group of a billing plan. -/
structure FreqItem where
  code : String
  label : Option String
  icrPublic : Option Int
  tarifBase : Option Int
  confidence : Confidence
  rank : Nat
deriving DecidableEq

/-- The assembled billing plan. -/
structure Plan where
  mainCode : CcamCode
  complementaryGestures : List PlanItem
  anesthesiaCodes : List PlanItem
  frequentAssociations : List FreqItem
deriving DecidableEq

/-- The `ORDER BY CASE WHEN type = 'complementary_gesture' THEN 0 ELSE 1 END,
COALESCE(cc.icr_public, 0) DESC` comparison on joined association rows. -/
def officialLe (x y : AssocEdge × Option CcamCode) : Bool :=
  let kx : Nat := if x.1.assocType == "complementary_gesture" then 0 else 1
  let ky : Nat := if y.1.assocType == "complementary_gesture" then 0 else 1
  let ix : Int := (x.2.bind (fun c => c.icrPublic)).getD 0
  let iy : Int := (y.2.bind (fun c => c.icrPublic)).getD 0
  kx < ky || (kx == ky && iy ≤ ix)

/-- The plan item built from one joined association row. -/
def planItemOf (row : AssocEdge × Option CcamCode) : PlanItem :=
  { code := row.1.associatedCode
    label := row.2.map (fun c => c.label)
    icrPublic := row.2.bind (fun c => c.icrPublic)
    icrPrivate := row.2.bind (fun c => c.icrPrivate)
    tarifBase := row.2.bind (fun c => c.tarifBase)
    dateEnd := row.2.bind (fun c => c.dateEnd)
    expired := pyTruthy (row.2.bind (fun c => c.dateEnd)) }

/-- The loop over official association rows of `get_billing_plan`: collect the
set of already-listed official target codes and split the items into the
gestures and anesthesia lists, preserving row order. -/
def officialLoop : List (AssocEdge × Option CcamCode) →
    List PlanItem × List PlanItem × List String
  | [] => ([], [], [])
  | row :: rest =>
      let (g, an, oc) := officialLoop rest
      let item := planItemOf row
      if row.1.assocType == "complementary_anesthesia" then
        (g, item :: an, row.1.associatedCode :: oc)
      else
        (item :: g, an, row.1.associatedCode :: oc)

/-- `CCAMSearch.get_billing_plan`: `None` for an unknown code; otherwise the
official associations joined to their target rows, ordered and split into
gestures and anesthesia, and the frequent associations ordered by rank with
the already-listed official targets skipped. -/
def get_billing_plan (db : DB) (code0 : String) : Option Plan :=
  let code := pyUpper code0
  match getCodeRow db code with
  | none => none
  | some main =>
      let assocRows :=
        List.insertionSort (fun x y => officialLe x y = true)
          ((db.associations.filter (fun a => a.code == code)).map
            (fun a => (a, getCodeRow db a.associatedCode)))
      let (gestures, anesthesia, officialCodes) := officialLoop assocRows
      let freqRows :=
        List.insertionSort (fun x y => x.1.rank ≤ y.1.rank)
          ((db.frequentAssociations.filter (fun f => f.code == code)).map
            (fun f => (f, getCodeRow db f.associatedCode)))
      let frequent :=
        (freqRows.filter
            (fun x => !officialCodes.contains x.1.associatedCode)).map
          (fun x =>
            { code := x.1.associatedCode
              label := x.1.label
              icrPublic := x.1.icrPublic
              tarifBase := x.2.bind (fun c => c.tarifBase)
              confidence := x.1.confidence
              rank := x.1.rank } )
      some { mainCode := main
             complementaryGestures := gestures
             anesthesiaCodes := anesthesia
             frequentAssociations := frequent }

/- ## Association classifier (`validate_associations.py`) -/

/-- One scraped candidate pair: the associated code plus the optional display
label scraped with it (`assoc.get("label", ...)` falls back to the catalog
label when the key is missing). -/
structure Candidate where
  code : String
  label : Option String
deriving DecidableEq

/-- A surviving candidate after classification (one element of the
`validated_associations.json` lists). -/
structure ValidAssoc where
  code : String
  label : String
  icrPublic : Option Int
  confidence : Confidence
deriving DecidableEq

/-- The `official` lookup of `validate`: the set of authoritative association
targets of a source code, as a list whose membership is what matters. -/
def officialTargets (edges : List AssocEdge) (code : String) : List String :=
  (edges.filter (fun a => a.code == code)).map (fun a => a.associatedCode)

/-- The rule chain of `validate` for one candidate, applied in order with
short-circuit at the first match: self-reference → discard; unknown code →
discard; expired (`date_end` non-null) → discard; in the official set →
`verified`; both chapters truthy and equal → `same_chapter`; otherwise
`cross_chapter`. -/
def keepCandidate (catalog : List CcamCode) (officialSet : List String)
    (srcInfo : CcamCode) (sourceCode : String) (a : Candidate) :
    Option ValidAssoc :=
  if a.code == sourceCode then none
  else
    match catalog.find? (fun r => r.code == a.code) with
    | none => none
    | some info =>
        if info.dateEnd.isSome then none
        else
          let confidence :=
            if officialSet.contains a.code then Confidence.verified
            else if pyTruthy srcInfo.chapterNum && pyTruthy info.chapterNum &&
                    srcInfo.chapterNum == info.chapterNum then
              Confidence.sameChapter
            else Confidence.crossChapter
          some { code := a.code
                 label := a.label.getD info.label
                 icrPublic := info.icrPublic
                 confidence := confidence }

/-- Numeric order of confidence tiers used by the classifier sort
(`confidence_order` in the source; the `.get(..., 9)` default is
unreachable for the three constructors). -/
def confOrder : Confidence → Nat
  | Confidence.verified => 0
  | Confidence.sameChapter => 1
  | Confidence.crossChapter => 2

/-- The classifier sort comparison: key
`(confidence_order[conf], -(icr_public or 0))` ascending.  Python's sort is
stable, as is `mergeSort`. -/
def validLe (x y : ValidAssoc) : Bool :=
  confOrder x.confidence < confOrder y.confidence ||
  (confOrder x.confidence == confOrder y.confidence &&
   (y.icrPublic.getD 0) ≤ (x.icrPublic.getD 0))

/-- `validate` from `validate_associations.py`: per scraped source code —
skipped entirely when absent from the catalog — filter the candidates through
the rule chain, drop source codes with no survivors, and sort the survivors
by confidence tier then ICR descending. -/
def validate (catalog : List CcamCode) (edges : List AssocEdge)
    (scraped : List (String × List Candidate)) :
    List (String × List ValidAssoc) :=
  scraped.filterMap (fun p =>
    match catalog.find? (fun r => r.code == p.1) with
    | none => none
    | some srcInfo =>
        let officialSet := officialTargets edges p.1
        let validAssocs :=
          p.2.filterMap (keepCandidate catalog officialSet srcInfo p.1)
        if validAssocs.isEmpty then none
        else some (p.1, List.insertionSort (fun x y => validLe x y = true) validAssocs))

/- ## Integration (`integrate_associations.py`) -/

/-- `INSERT OR IGNORE` into `frequent_associations` with primary key
`(code, associated_code)`: append unless a row with the same key exists. -/
def insertOrIgnoreFreq (table : List FreqRow) (row : FreqRow) : List FreqRow :=
  if table.any (fun r => r.code == row.code &&
                         r.associatedCode == row.associatedCode) then table
  else table ++ [row]

/-- The `frequent_associations` row inserted for the candidate at 1-based
position `rank` of a source code's validated list. -/
def freqRowOf (sourceCode : String) (rank : Nat) (a : ValidAssoc) : FreqRow :=
  { code := sourceCode
    associatedCode := a.code
    label := some a.label
    icrPublic := a.icrPublic
    confidence := a.confidence
    rank := rank }

/-- The inner loop of `integrate` for one source code: insert the enumerated
candidates with `rank = position + 1`, ranks assigned before the
`INSERT OR IGNORE` deduplication. -/
def integrateGroup (table : List FreqRow) (sourceCode : String)
    (l : List ValidAssoc) : List FreqRow :=
  l.enum.foldl
    (fun t q => insertOrIgnoreFreq t (freqRowOf sourceCode (q.1 + 1) q.2)) table

/-- `integrate` from `integrate_associations.py`: start from the freshly
recreated (empty) table and run the nested insertion loops. -/
def integrate (validated : List (String × List ValidAssoc)) : List FreqRow :=
  validated.foldl (fun table p => integrateGroup table p.1 p.2) []

/- ## Catalog builder: association-edge extraction (`build_ccam_db.py`) -/

/-- `safe_str`: `None` stays `None`; a string is stripped and the empty
result becomes `None`. -/
def safe_str : Option String → Option String
  | none => none
  | some v => if pyStrip v = "" then none else some (pyStrip v)

/-- Whether a character list starts with a CCAM code: 4 uppercase ASCII
letters followed by 3 digits (the regex `[A-Z]{4}[0-9]{3}` at this
position). -/
def matchCodeAt (cs : List Char) : Bool :=
  match cs with
  | a :: b :: c :: d :: e :: f :: g :: _ =>
      (fun x => 'A' ≤ x && x ≤ 'Z') a && (fun x => 'A' ≤ x && x ≤ 'Z') b &&
      (fun x => 'A' ≤ x && x ≤ 'Z') c && (fun x => 'A' ≤ x && x ≤ 'Z') d &&
      e.isDigit && f.isDigit && g.isDigit
  | _ => false

/-- `re.findall(r'[A-Z]{4}[0-9]{3}', text)`: leftmost non-overlapping
matches, scanning forward one character at a time and skipping past each
match. -/
def findCodes : List Char → List String
  | [] => []
  | c :: rest =>
      if matchCodeAt (c :: rest) then
        String.mk ((c :: rest).take 7) :: findCodes ((c :: rest).drop 7)
      else findCodes rest
termination_by cs => cs.length
decreasing_by
  · simp [List.length_drop]
    omega
  · simp

/-- The gesture columns of one catalog row, paired with the `activity` tag the
builder derives from the column name (`gesture_col.replace("gestures_", "")`). -/
def gestureColumns (gTxt g123 g4 g5 : Option String) :
    List (String × Option String) :=
  [("text", gTxt), ("act123", g123), ("act4", g4), ("act5", g5)]

/-- The association edges one catalog row contributes, in insertion order:
for each gesture column, every extracted code other than the row's own code
becomes a `complementary_gesture` edge tagged with the column's activity; the
anesthesia column likewise yields `complementary_anesthesia` edges tagged
`anesthesia`.  Self-loops are excluded by the `!= code` guards of the
source. -/
def rowAssociationEdges (code : String)
    (gTxt g123 g4 g5 anesth : Option String) : List AssocEdge :=
  ((gestureColumns gTxt g123 g4 g5).flatMap (fun p =>
    match safe_str p.2 with
    | none => []
    | some v =>
        (findCodes v.data).filterMap (fun ac =>
          if ac ≠ code then
            some { code := code, associatedCode := ac
                   assocType := "complementary_gesture", activity := p.1 }
          else none))) ++
  (match safe_str anesth with
   | none => []
   | some v =>
       (findCodes v.data).filterMap (fun ac =>
         if ac ≠ code then
           some { code := code, associatedCode := ac
                  assocType := "complementary_anesthesia"
                  activity := "anesthesia" }
         else none))

/-- `INSERT OR IGNORE` into `associations` with primary key
`(code, associated_code, activity)`. -/
def insertOrIgnoreEdge (table : List AssocEdge) (e : AssocEdge) :
    List AssocEdge :=
  if table.any (fun x => x.code == e.code &&
                         x.associatedCode == e.associatedCode &&
                         x.activity == e.activity) then table
  else table ++ [e]

/-- Inserting one row's association edges into the accumulated table. -/
def insertRowAssociations (table : List AssocEdge) (code : String)
    (gTxt g123 g4 g5 anesth : Option String) : List AssocEdge :=
  (rowAssociationEdges code gTxt g123 g4 g5 anesth).foldl insertOrIgnoreEdge table

/- ## Concrete fixtures used by witnesses and counterexamples -/

/-- An active catalog entry (chapter 01). -/
def rowA : CcamCode :=
  { code := "AAAA001", label := "Acte test chirurgical"
    labelNormalized := "acte test chirurgical", chapterNum := some "01"
    icrPublic := some 10, icrPrivate := none, tarifBase := some 100
    dateEnd := none }

/-- A second active catalog entry (chapter 01). -/
def rowB : CcamCode :=
  { code := "BBBB002", label := "Geste complementaire"
    labelNormalized := "geste complementaire", chapterNum := some "01"
    icrPublic := some 5, icrPrivate := none, tarifBase := some 50
    dateEnd := none }

/-- An expired catalog entry (chapter 02). -/
def rowC : CcamCode :=
  { code := "CCCC003", label := "Acte expire"
    labelNormalized := "acte expire", chapterNum := some "02"
    icrPublic := some 3, icrPrivate := none, tarifBase := none
    dateEnd := some "2020-01-01" }

/-- A third active catalog entry (chapter 01). -/
def rowD : CcamCode :=
  { code := "DDDD004", label := "Autre acte"
    labelNormalized := "autre acte", chapterNum := some "01"
    icrPublic := some 3, icrPrivate := none, tarifBase := none
    dateEnd := none }

/-- A declared gesture edge `AAAA001 → BBBB002` (activity `act123`). -/
def edgeAB : AssocEdge :=
  { code := "AAAA001", associatedCode := "BBBB002"
    assocType := "complementary_gesture", activity := "act123" }

/-- The same ordered pair under a different activity (allowed by the
primary key `(code, associated_code, activity)`). -/
def edgeAB4 : AssocEdge :=
  { code := "AAAA001", associatedCode := "BBBB002"
    assocType := "complementary_gesture", activity := "act4" }

/-- A database with one gesture edge. -/
def dbMain : DB :=
  { ccamCodes := [rowA, rowB, rowC, rowD]
    associations := [edgeAB]
    frequentAssociations := [] }

/-- An observed association `AAAA001 → BBBB002` (also an official target). -/
def frB : FreqRow :=
  { code := "AAAA001", associatedCode := "BBBB002", label := some "Geste"
    icrPublic := some 5, confidence := Confidence.verified, rank := 1 }

/-- An observed association `AAAA001 → DDDD004` (not an official target). -/
def frD : FreqRow :=
  { code := "AAAA001", associatedCode := "DDDD004", label := some "Autre"
    icrPublic := some 3, confidence := Confidence.crossChapter, rank := 2 }

/-- A database where `BBBB002` is both an official target — twice, under two
activities — and an observed association of `AAAA001`. -/
def dbDup : DB :=
  { ccamCodes := [rowA, rowB, rowC, rowD]
    associations := [edgeAB, edgeAB4]
    frequentAssociations := [frB, frD] }

/-- The trivial stand-in for the SQLite-internal FTS rank. -/
def zeroRank : CcamCode → Int := fun _ => 0

/-- A catalog for the classifier fixtures. -/
def cat2 : List CcamCode := [rowA, rowB, rowD]

/-- A scraped candidate list in which the associated code `BBBB002` occurs
twice. -/
def scraped2 : List (String × List Candidate) :=
  [("AAAA001", [⟨"BBBB002", none⟩, ⟨"BBBB002", none⟩, ⟨"DDDD004", none⟩])]

/-- A scraped candidate list with pairwise-distinct associated codes. -/
def scraped3 : List (String × List Candidate) :=
  [("AAAA001", [⟨"BBBB002", none⟩, ⟨"DDDD004", none⟩])]

/-- The billing plan the source assembles for `AAAA001` over `dbDup`: the
doubly-declared official target `BBBB002` appears once per edge in the
gestures group, and the frequent group keeps only `DDDD004`. -/
def planDup : Plan :=
  { mainCode := rowA
    complementaryGestures :=
      [ { code := "BBBB002", label := some "Geste complementaire"
          icrPublic := some 5, icrPrivate := none, tarifBase := some 50
          dateEnd := none, expired := false }
      , { code := "BBBB002", label := some "Geste complementaire"
          icrPublic := some 5, icrPrivate := none, tarifBase := some 50
          dateEnd := none, expired := false } ]
    anesthesiaCodes := []
    frequentAssociations :=
      [ { code := "DDDD004", label := some "Autre", icrPublic := some 3
          tarifBase := none, confidence := Confidence.crossChapter
          rank := 2 } ] }

/-- The surviving candidate `BBBB002` as classified against `cat2` with the
official edge `edgeAB` present. -/
def vB : ValidAssoc :=
  { code := "BBBB002", label := "Geste complementaire"
    icrPublic := some 5, confidence := Confidence.verified }

/-- The surviving candidate `DDDD004` as classified against `cat2`
(same chapter as the source, no official edge). -/
def vD : ValidAssoc :=
  { code := "DDDD004", label := "Autre acte"
    icrPublic := some 3, confidence := Confidence.sameChapter }

/- ## Claims -/

/-- C1.  `check_compatibility` queries `associations` in both directions for
every pair `i < j`, but the issue-emitting loop iterates over the `i → j`
rows only: with the single declared gesture edge `AAAA001 → BBBB002`, the
input order `["AAAA001", "BBBB002"]` yields the `has_association` issue,
while the reversed input order `["BBBB002", "AAAA001"]` — where the edge is
found only in the `j → i` direction — yields no issue at all, and the checker
falls through to `ok`.  This refutes the claim that each edge found in either
direction yields one issue. -/
theorem c1_reverse_edge_emits_no_issue :
    check_compatibility dbMain ["AAAA001", "BBBB002"] =
      [Issue.hasAssociation "AAAA001" "BBBB002" "complementary_gesture" "act123"]
    ∧ check_compatibility dbMain ["BBBB002", "AAAA001"] = [Issue.ok] := by
  constructor
  · decide
  · decide

/-- C3, counterexample.  The query-side normalizer is not total over null
input: `normalize_query(None)` evaluates `None.lower()` and raises
`AttributeError` (modelled as `Except.error`), and `search` on a null query
propagates that exception instead of returning an empty result. -/
theorem c3_counterexample :
    normalize_query none = Except.error "AttributeError"
    ∧ search dbMain zeroRank none 10 true = Except.error "AttributeError" := by
  constructor
  · rfl
  · rfl

/-- C3, amended.  The normalizer and search are total over the empty string —
the empty query normalizes to zero tokens and search returns an empty result
without attempting any tier — but a null (None) query raises `AttributeError`
in `normalize_query` (and hence in `search`) rather than yielding an empty
token sequence. -/
theorem c3_empty_ok_none_raises :
    normalize_query (some "") = Except.ok []
    ∧ (∀ (db : DB) (rankFn : CcamCode → Int) (limit : Nat) (activeOnly : Bool),
        search db rankFn (some "") limit activeOnly = Except.ok [])
    ∧ normalize_query none = Except.error "AttributeError" := by
  refine ⟨rfl, ?_, rfl⟩
  intro db rankFn limit activeOnly
  rfl

/-- C8, counterexample.  The `re.sub(r'[^\w\s]', ' ', ...)` step keeps every
`\w` character, and Python's `\w` includes the underscore: the query `"a_b"`
normalizes to the single token `"a_b"`, which contains a character that is
neither a letter, nor a digit, nor whitespace.  This refutes the claim that
every such character is replaced before splitting. -/
theorem c8_counterexample :
    normalizeTokens "a_b" = ["a_b"]
    ∧ (["a_b"].all (fun t => t.data.all
        (fun c => c.isAlpha || c.isDigit || pyIsSpace c))) = false := by
  constructor
  · decide
  · decide

/-- Characters of the runs produced by `splitRuns` never satisfy the
separator predicate and come from the input (or the accumulator). -/
theorem splitRuns_chars (sep : Char → Bool) :
    ∀ (l acc : List Char), (∀ c ∈ acc, sep c = false) →
      ∀ t ∈ splitRuns sep l acc, ∀ c ∈ t.data,
        sep c = false ∧ (c ∈ l ∨ c ∈ acc) := by
  intro l
  induction l with
  | nil =>
      intro acc hacc t ht c hc
      by_cases he : acc.isEmpty
      · simp [splitRuns, he] at ht
      · simp [splitRuns, he] at ht
        subst ht
        simp at hc
        exact ⟨hacc c hc, Or.inr hc⟩
  | cons c0 rest ih =>
      intro acc hacc t ht c hc
      by_cases hs : sep c0
      · rw [splitRuns, if_pos hs] at ht
        rcases List.mem_append.mp ht with hl | hr
        · by_cases he : acc.isEmpty
          · simp [he] at hl
          · simp [he] at hl
            subst hl
            simp at hc
            exact ⟨hacc c hc, Or.inr hc⟩
        · have := ih [] (by simp) t hr c hc
          refine ⟨this.1, Or.inl ?_⟩
          rcases this.2 with h | h
          · exact List.mem_cons_of_mem _ h
          · simp at h
      · rw [splitRuns, if_neg hs] at ht
        have hacc' : ∀ x ∈ c0 :: acc, sep x = false := by
          intro x hx
          rcases List.mem_cons.mp hx with h | h
          · subst h
            simpa using hs
          · exact hacc x h
        have := ih (c0 :: acc) hacc' t ht c hc
        refine ⟨this.1, ?_⟩
        rcases this.2 with h | h
        · exact Or.inl (List.mem_cons_of_mem _ h)
        · rcases List.mem_cons.mp h with h | h
          · exact Or.inl (by simp [h])
          · exact Or.inr h

/-- Every character surviving the punctuation-blanking step is a word
character or whitespace. -/
theorem substNonWord_chars (s : String) :
    ∀ c ∈ (substNonWord s).data, (pyIsWord c || pyIsSpace c) = true := by
  intro c hc
  simp only [substNonWord] at hc
  rcases List.mem_map.mp hc with ⟨x, _, hcx⟩
  by_cases h : (pyIsWord x || pyIsSpace x) = true
  · rw [if_pos h] at hcx
    subst hcx
    exact h
  · rw [if_neg h] at hcx
    subst hcx
    decide

/-- C8, amended.  After the substitution step every character is a `\w`
character or whitespace (the underscore, being in `\w`, survives), and
consequently every token produced by the query normalizer consists of `\w`
characters only — letters, digits or underscores, rather than the claimed
letters and digits only. -/
theorem c8_tokens_are_word_chars :
    (∀ s : String, ∀ c ∈ (substNonWord s).data,
      (pyIsWord c || pyIsSpace c) = true)
    ∧ (∀ q : String, ∀ t ∈ normalizeTokens q, ∀ c ∈ t.data,
        pyIsWord c = true) := by
  refine ⟨substNonWord_chars, ?_⟩
  intro q t ht c hc
  have ht' : t ∈ pySplit (substNonWord (strip_accents (pyStrip (pyLower q)))) := by
    simp only [normalizeTokens] at ht
    by_cases hl :
        (pySplit (substNonWord (strip_accents (pyStrip (pyLower q))))).length > 1
    · rw [if_pos hl] at ht
      exact List.mem_of_mem_filter ht
    · rwa [if_neg hl] at ht
  have hchar := splitRuns_chars pyIsSpace _ [] (by simp) t ht' c hc
  rcases hchar with ⟨hsep, hmem | hmem⟩
  · have := substNonWord_chars _ c hmem
    rcases Bool.or_eq_true_iff.mp this with h | h
    · exact h
    · rw [h] at hsep
      exact absurd hsep (by simp)
  · simp at hmem

/-- C8, witness: the underscore of the normalized token of `"a_b"` is indeed
a `\w` character. -/
theorem c8_tokens_are_word_chars_witness : pyIsWord (Char.ofNat 95) = true :=
  c8_tokens_are_word_chars.2 "a_b" "a_b" (by decide) (Char.ofNat 95) (by decide)

/-- An element of a list is enumerated at some index. -/
theorem exists_enumFrom_of_mem {α : Type} :
    ∀ (l : List α) (n : Nat) (a : α), a ∈ l → ∃ i, (i, a) ∈ l.enumFrom n := by
  intro l
  induction l with
  | nil =>
      intro n a h
      simp at h
  | cons b l ih =>
      intro n a h
      rcases List.mem_cons.mp h with h | h
      · exact ⟨n, by simp [List.enumFrom, h]⟩
      · obtain ⟨i, hi⟩ := ih (n + 1) a h
        exact ⟨i, by simp [List.enumFrom]; exact Or.inr hi⟩

/-- Every `has_association` issue a pair loop emits comes from an edge whose
source is the pair's earlier code. -/
theorem mem_pairIssues {db : DB} {codes : List String} {i : Nat}
    {code1 : String} {issue : Issue}
    (h : issue ∈ pairIssues db codes i code1) :
    ∃ a ∈ db.associations, a.code = code1 ∧
      issue = Issue.hasAssociation code1 a.associatedCode a.assocType a.activity := by
  simp only [pairIssues] at h
  rcases List.mem_flatMap.mp h with ⟨q, _, hq⟩
  by_cases hij : i ≥ q.1
  · rw [if_pos hij] at hq
    simp at hq
  · rw [if_neg hij] at hq
    by_cases hcond :
        (!(db.associations.filter (fun a =>
            a.code == code1 && a.associatedCode == q.2)).isEmpty ||
         !(db.associations.filter (fun a =>
            a.code == q.2 && a.associatedCode == code1)).isEmpty) = true
    · rw [if_pos hcond] at hq
      rcases List.mem_map.mp hq with ⟨a, ha, hia⟩
      have ha' := List.mem_filter.mp ha
      have hcode : a.code = code1 ∧ a.associatedCode = q.2 := by
        have := ha'.2
        simp at this
        exact this
      refine ⟨a, ha'.1, hcode.1, ?_⟩
      rw [← hia, hcode.2]
    · rw [if_neg hcond] at hq
      simp at hq

/-- Membership in the checker's issue list, split along the structure of the
outer loop. -/
theorem mem_check_cases {db : DB} {codes0 : List String} {issue : Issue}
    (h : issue ∈ check_compatibility db codes0) :
    issue = Issue.ok ∨
    ∃ p ∈ (codes0.map pyUpper).enum,
      issue ∈ codeIssues db (codes0.map pyUpper) p.1 p.2 := by
  simp only [check_compatibility] at h
  by_cases he :
      ((codes0.map pyUpper).enum.flatMap
        (fun p => codeIssues db (codes0.map pyUpper) p.1 p.2)).isEmpty
  · rw [if_pos he] at h
    simp at h
    exact Or.inl h
  · rw [if_neg he] at h
    exact Or.inr (List.mem_flatMap.mp h)

/-- Every `has_association` issue of a compatibility check names, as its
first code, a code that the catalog lookup resolved, and corresponds to an
edge of the `associations` table from that first code to the second. -/
theorem hasAssociation_source {db : DB} {codes0 : List String}
    {c1 c2 t act : String}
    (h : Issue.hasAssociation c1 c2 t act ∈ check_compatibility db codes0) :
    (getCodeRow db c1).isSome ∧
    ∃ a ∈ db.associations, a.code = c1 ∧ a.associatedCode = c2 ∧
      a.assocType = t ∧ a.activity = act := by
  rcases mem_check_cases h with hok | ⟨p, _, hp⟩
  · exact absurd hok (by simp)
  · simp only [codeIssues] at hp
    rcases hrow : getCodeRow db p.2 with _ | row
    · rw [hrow] at hp
      simp at hp
    · rw [hrow] at hp
      rcases List.mem_append.mp hp with hexp | hpair
      · by_cases hd : pyTruthy row.dateEnd
        · rw [if_pos hd] at hexp
          simp at hexp
        · rw [if_neg hd] at hexp
          simp at hexp
      · rcases mem_pairIssues hpair with ⟨a, ha, hac, hia⟩
        have h1 : c1 = p.2 ∧ c2 = a.associatedCode ∧ t = a.assocType ∧
            act = a.activity := by
          cases hia
          exact ⟨rfl, rfl, rfl, rfl⟩
        refine ⟨?_, a, ha, ?_, ?_, ?_, ?_⟩
        · rw [h1.1, hrow]
          rfl
        · rw [hac, h1.1]
        · rw [h1.2.1]
        · rw [h1.2.2.1]
        · rw [h1.2.2.2]

/-- C9.  When an input code is absent from the catalog the checker emits its
`unknown_code` issue and `continue`s past the pair loop for that position, so
a `has_association` issue can only ever name, as its first code, a code the
catalog lookup resolved. -/
theorem c9_unknown_first_code_never_associated (db : DB) (codes : List String) :
    (∀ c ∈ codes.map pyUpper, getCodeRow db c = none →
      Issue.unknownCode c ∈ check_compatibility db codes)
    ∧ (∀ c1 c2 t act : String,
        Issue.hasAssociation c1 c2 t act ∈ check_compatibility db codes →
        (getCodeRow db c1).isSome) := by
  constructor
  · intro c hc hnone
    obtain ⟨i, hi⟩ := exists_enumFrom_of_mem (codes.map pyUpper) 0 c hc
    have hmem : Issue.unknownCode c ∈
        (codes.map pyUpper).enum.flatMap
          (fun p => codeIssues db (codes.map pyUpper) p.1 p.2) := by
      refine List.mem_flatMap.mpr ⟨(i, c), ?_, ?_⟩
      · simpa [List.enum] using hi
      · simp [codeIssues, hnone]
    simp only [check_compatibility]
    rw [if_neg (by simpa using List.ne_nil_of_mem hmem)]
    exact hmem
  · intro c1 c2 t act h
    exact (hasAssociation_source h).1

/-- C9, witness: `["ZZZZ999", "AAAA001"]` with `ZZZZ999` absent from the
catalog yields its `unknown_code` issue. -/
theorem c9_unknown_first_code_never_associated_witness :
    Issue.unknownCode "ZZZZ999" ∈
      check_compatibility dbMain ["ZZZZ999", "AAAA001"] :=
  (c9_unknown_first_code_never_associated dbMain ["ZZZZ999", "AAAA001"]).1
    "ZZZZ999" (by decide) (by decide)

/-- The association edges extracted from one catalog row are never
self-loops: both the gesture and the anesthesia insertions are guarded by
`assoc_code != code`. -/
theorem rowAssociationEdges_no_self (code : String)
    (gTxt g123 g4 g5 anesth : Option String) :
    ∀ e ∈ rowAssociationEdges code gTxt g123 g4 g5 anesth,
      e.code ≠ e.associatedCode := by
  intro e he
  simp only [rowAssociationEdges] at he
  rcases List.mem_append.mp he with hg | ha
  · rcases List.mem_flatMap.mp hg with ⟨p, _, hp⟩
    rcases hss : safe_str p.2 with _ | v
    · rw [hss] at hp
      simp at hp
    · rw [hss] at hp
      rcases List.mem_filterMap.mp hp with ⟨ac, _, hac⟩
      by_cases hne : ac ≠ code
      · rw [if_pos hne] at hac
        cases hac
        simpa using fun h => hne h.symm
      · rw [if_neg hne] at hac
        simp at hac
  · rcases hss : safe_str anesth with _ | v
    · rw [hss] at ha
      simp at ha
    · rw [hss] at ha
      rcases List.mem_filterMap.mp ha with ⟨ac, _, hac⟩
      by_cases hne : ac ≠ code
      · rw [if_pos hne] at hac
        cases hac
        simpa using fun h => hne h.symm
      · rw [if_neg hne] at hac
        simp at hac

/-- Folding `INSERT OR IGNORE` insertions preserves any pointwise property
that holds of the existing table and of the inserted edges. -/
theorem foldl_insertOrIgnoreEdge_pointwise (P : AssocEdge → Prop) :
    ∀ (rows table : List AssocEdge), (∀ e ∈ table, P e) → (∀ e ∈ rows, P e) →
      ∀ e ∈ rows.foldl insertOrIgnoreEdge table, P e := by
  intro rows
  induction rows with
  | nil =>
      intro table ht _ e he
      exact ht e he
  | cons r rows ih =>
      intro table ht hr e he
      have ht' : ∀ x ∈ insertOrIgnoreEdge table r, P x := by
        intro x hx
        simp only [insertOrIgnoreEdge] at hx
        by_cases hc : table.any (fun y => y.code == r.code &&
            y.associatedCode == r.associatedCode && y.activity == r.activity)
        · rw [if_pos hc] at hx
          exact ht x hx
        · rw [if_neg hc] at hx
          rcases List.mem_append.mp hx with hx | hx
          · exact ht x hx
          · simp at hx
            rw [hx]
            exact hr r (by simp)
      exact ih (insertOrIgnoreEdge table r) ht'
        (fun x hx => hr x (List.mem_cons_of_mem _ hx)) e he

/-- C10.  The builder excludes self-loop edges at construction (for the
gesture columns and the anesthesia column alike), the table insertion
preserves that invariant, and over any edge table without self-loops the
compatibility checker can never emit a `has_association` issue pairing a
code with itself — in particular not when the input list repeats a code. -/
theorem c10_no_self_loop_edges :
    (∀ (code : String) (gTxt g123 g4 g5 anesth : Option String),
      ∀ e ∈ rowAssociationEdges code gTxt g123 g4 g5 anesth,
        e.code ≠ e.associatedCode)
    ∧ (∀ (table : List AssocEdge) (code : String)
         (gTxt g123 g4 g5 anesth : Option String),
        (∀ e ∈ table, e.code ≠ e.associatedCode) →
        ∀ e ∈ insertRowAssociations table code gTxt g123 g4 g5 anesth,
          e.code ≠ e.associatedCode)
    ∧ (∀ (db : DB) (codes : List String) (c t act : String),
        (∀ e ∈ db.associations, e.code ≠ e.associatedCode) →
        Issue.hasAssociation c c t act ∉ check_compatibility db codes) := by
  refine ⟨rowAssociationEdges_no_self, ?_, ?_⟩
  · intro table code gTxt g123 g4 g5 anesth ht
    exact foldl_insertOrIgnoreEdge_pointwise _ _ table ht
      (rowAssociationEdges_no_self code gTxt g123 g4 g5 anesth)
  · intro db codes c t act hdb h
    rcases (hasAssociation_source h).2 with ⟨a, ha, hc1, hc2, _, _⟩
    exact hdb a ha (by rw [hc1, hc2])

/-- C10, witness: with the self-loop-free fixture table, checking a list
that contains `AAAA001` twice yields no `has_association` issue pairing
`AAAA001` with itself. -/
theorem c10_no_self_loop_edges_witness :
    Issue.hasAssociation "AAAA001" "AAAA001" "complementary_gesture" "act123" ∉
      check_compatibility dbMain ["AAAA001", "AAAA001"] :=
  c10_no_self_loop_edges.2.2 dbMain ["AAAA001", "AAAA001"]
    "AAAA001" "complementary_gesture" "act123" (by decide)

/-- C5.  The classifier's rule chain tests the official-edge membership
before the chapter rules, so every surviving candidate whose associated code
is an authoritative association target of its source code is assigned the
`verified` confidence — never `same_chapter` or `cross_chapter`, whatever the
chapters are. -/
theorem c5_verified_precedence (catalog : List CcamCode)
    (edges : List AssocEdge) (scraped : List (String × List Candidate)) :
    ∀ p ∈ validate catalog edges scraped, ∀ v ∈ p.2,
      v.code ∈ officialTargets edges p.1 →
      v.confidence = Confidence.verified := by
  intro p hp v hv hofficial
  rcases List.mem_filterMap.mp hp with ⟨q, _, hfq⟩
  simp only [validate] at hfq
  split at hfq
  · simp at hfq
  · rename_i srcInfo hfind
    by_cases hemp :
        (q.2.filterMap
          (keepCandidate catalog (officialTargets edges q.1) srcInfo q.1)).isEmpty
    · rw [if_pos hemp] at hfq
      simp at hfq
    · rw [if_neg hemp] at hfq
      injection hfq with hfq2
      subst hfq2
      have hv' := (List.mem_insertionSort _).mp hv
      rcases List.mem_filterMap.mp hv' with ⟨a, _, hka⟩
      simp only [keepCandidate] at hka
      by_cases hself : (a.code == q.1) = true
      · rw [if_pos hself] at hka
        simp at hka
      · rw [if_neg hself] at hka
        split at hka
        · simp at hka
        · rename_i info hfa
          by_cases hde : info.dateEnd.isSome
          · rw [if_pos hde] at hka
            simp at hka
          · rw [if_neg hde] at hka
            have hva : v.code = a.code ∧ v.confidence =
                (if (officialTargets edges q.1).contains a.code then
                   Confidence.verified
                 else if pyTruthy srcInfo.chapterNum && pyTruthy info.chapterNum &&
                         srcInfo.chapterNum == info.chapterNum then
                   Confidence.sameChapter
                 else Confidence.crossChapter) := by
              cases hka
              exact ⟨rfl, rfl⟩
            have hcont : (officialTargets edges q.1).contains a.code = true := by
              rw [← hva.1]
              simpa using hofficial
            rw [hva.2, if_pos hcont]

/-- C5, witness: with the official edge `AAAA001 → BBBB002` present, the
scraped candidate `BBBB002` (same chapter as the source) is classified
`verified`. -/
theorem c5_verified_precedence_witness : vB.confidence = Confidence.verified :=
  c5_verified_precedence cat2 [edgeAB] scraped3 ("AAAA001", [vB, vD])
    (by decide) vB (by decide) (by decide)

/-- Unfolding of `search` on a non-null query. -/
theorem search_some (db : DB) (rankFn : CcamCode → Int) (s : String)
    (limit : Nat) (activeOnly : Bool) :
    search db rankFn (some s) limit activeOnly =
      (if (normalizeTokens s).isEmpty then Except.ok []
       else Except.ok
         ((searchResults db rankFn (normalizeTokens s) limit activeOnly).map
           (enrichRow db))) := rfl

/-- When strategy 1 finds rows, the fallback chain stops there. -/
theorem searchResults_tier1 {db : DB} {rankFn : CcamCode → Int}
    {tokens : List String} {limit : Nat} {activeOnly : Bool}
    (h1 : tier1 db rankFn tokens limit activeOnly ≠ []) :
    searchResults db rankFn tokens limit activeOnly =
      tier1 db rankFn tokens limit activeOnly := by
  have e1 : (tier1 db rankFn tokens limit activeOnly).isEmpty = false := by
    simp [List.isEmpty_iff, h1]
  simp [searchResults, e1]

/-- A single-token query skips strategy 2: the chain goes straight from an
empty strategy-1 result to strategy 3. -/
theorem searchResults_single_token {db : DB} {rankFn : CcamCode → Int}
    {tokens : List String} {limit : Nat} {activeOnly : Bool}
    (h1 : tier1 db rankFn tokens limit activeOnly = [])
    (hlen : tokens.length ≤ 1) :
    searchResults db rankFn tokens limit activeOnly =
      tier3 db tokens limit activeOnly := by
  have e1 : (tier1 db rankFn tokens limit activeOnly).isEmpty = true := by
    simp [List.isEmpty_iff, h1]
  have e2 : decide (tokens.length > 1) = false := by
    simp
    omega
  simp [searchResults, e1, e2, h1]

/-- When strategy 1 is empty and the multi-token strategy 2 finds rows, the
chain stops at strategy 2. -/
theorem searchResults_tier2 {db : DB} {rankFn : CcamCode → Int}
    {tokens : List String} {limit : Nat} {activeOnly : Bool}
    (h1 : tier1 db rankFn tokens limit activeOnly = [])
    (hlen : tokens.length > 1)
    (h2 : tier2 db rankFn tokens limit activeOnly ≠ []) :
    searchResults db rankFn tokens limit activeOnly =
      tier2 db rankFn tokens limit activeOnly := by
  have e1 : (tier1 db rankFn tokens limit activeOnly).isEmpty = true := by
    simp [List.isEmpty_iff, h1]
  have e2 : (tier2 db rankFn tokens limit activeOnly).isEmpty = false := by
    simp [List.isEmpty_iff, h2]
  simp [searchResults, e1, e2, hlen]

/-- When both earlier strategies came up empty on a multi-token query, the
chain falls through to strategy 3. -/
theorem searchResults_tier3 {db : DB} {rankFn : CcamCode → Int}
    {tokens : List String} {limit : Nat} {activeOnly : Bool}
    (h1 : tier1 db rankFn tokens limit activeOnly = [])
    (hlen : tokens.length > 1)
    (h2 : tier2 db rankFn tokens limit activeOnly = []) :
    searchResults db rankFn tokens limit activeOnly =
      tier3 db tokens limit activeOnly := by
  have e1 : (tier1 db rankFn tokens limit activeOnly).isEmpty = true := by
    simp [List.isEmpty_iff, h1]
  have e2 : (tier2 db rankFn tokens limit activeOnly).isEmpty = true := by
    simp [List.isEmpty_iff, h2]
  simp [searchResults, e1, e2, hlen]

/-- The fallback chain always returns the rows of one of the three
strategies. -/
theorem searchResults_cases (db : DB) (rankFn : CcamCode → Int)
    (tokens : List String) (limit : Nat) (activeOnly : Bool) :
    searchResults db rankFn tokens limit activeOnly =
        tier1 db rankFn tokens limit activeOnly ∨
    searchResults db rankFn tokens limit activeOnly =
        tier2 db rankFn tokens limit activeOnly ∨
    searchResults db rankFn tokens limit activeOnly =
        tier3 db tokens limit activeOnly := by
  simp only [searchResults]
  split
  · split
    · exact Or.inr (Or.inr rfl)
    · exact Or.inr (Or.inl rfl)
  · split
    · exact Or.inr (Or.inr rfl)
    · exact Or.inl rfl

/-- C4.  The three search strategies are evaluated in strict short-circuit
order: zero tokens return an empty result with no strategy attempted; a
non-empty strategy-1 result is returned as is; strategy 2 runs only when
strategy 1 was empty and the query has more than one token; strategy 3 runs
only when every previously attempted strategy was empty. -/
theorem c4_tier_short_circuit (db : DB) (rankFn : CcamCode → Int)
    (q : Option String) (limit : Nat) (activeOnly : Bool) :
    (normalize_query q = Except.ok [] →
      search db rankFn q limit activeOnly = Except.ok [])
    ∧ (∀ tokens, normalize_query q = Except.ok tokens → tokens ≠ [] →
        tier1 db rankFn tokens limit activeOnly ≠ [] →
        search db rankFn q limit activeOnly =
          Except.ok ((tier1 db rankFn tokens limit activeOnly).map (enrichRow db)))
    ∧ (∀ tokens, normalize_query q = Except.ok tokens → tokens ≠ [] →
        tier1 db rankFn tokens limit activeOnly = [] → tokens.length ≤ 1 →
        search db rankFn q limit activeOnly =
          Except.ok ((tier3 db tokens limit activeOnly).map (enrichRow db)))
    ∧ (∀ tokens, normalize_query q = Except.ok tokens →
        tier1 db rankFn tokens limit activeOnly = [] → tokens.length > 1 →
        tier2 db rankFn tokens limit activeOnly ≠ [] →
        search db rankFn q limit activeOnly =
          Except.ok ((tier2 db rankFn tokens limit activeOnly).map (enrichRow db)))
    ∧ (∀ tokens, normalize_query q = Except.ok tokens →
        tier1 db rankFn tokens limit activeOnly = [] → tokens.length > 1 →
        tier2 db rankFn tokens limit activeOnly = [] →
        search db rankFn q limit activeOnly =
          Except.ok ((tier3 db tokens limit activeOnly).map (enrichRow db))) := by
  have hq : ∀ tokens, normalize_query q = Except.ok tokens →
      q = some (q.getD "") ∧ normalizeTokens (q.getD "") = tokens := by
    intro tokens hn
    cases q with
    | none => simp [normalize_query] at hn
    | some s =>
        refine ⟨rfl, ?_⟩
        simpa [normalize_query] using hn
  refine ⟨?_, ?_, ?_, ?_, ?_⟩
  · intro hn
    obtain ⟨hqs, hts⟩ := hq [] hn
    rw [hqs, search_some]
    simp [hts]
  · intro tokens hn hne h1
    obtain ⟨hqs, hts⟩ := hq tokens hn
    rw [hqs, search_some, hts, if_neg (by simpa using hne),
        searchResults_tier1 h1]
  · intro tokens hn hne h1 hlen
    obtain ⟨hqs, hts⟩ := hq tokens hn
    rw [hqs, search_some, hts, if_neg (by simpa using hne),
        searchResults_single_token h1 hlen]
  · intro tokens hn h1 hlen h2
    obtain ⟨hqs, hts⟩ := hq tokens hn
    have hne : tokens ≠ [] := by
      intro hk
      rw [hk] at hlen
      simp at hlen
    rw [hqs, search_some, hts, if_neg (by simpa using hne),
        searchResults_tier2 h1 hlen h2]
  · intro tokens hn h1 hlen h2
    obtain ⟨hqs, hts⟩ := hq tokens hn
    have hne : tokens ≠ [] := by
      intro hk
      rw [hk] at hlen
      simp at hlen
    rw [hqs, search_some, hts, if_neg (by simpa using hne),
        searchResults_tier3 h1 hlen h2]

/-- C4, witness: the two-token query `"acte test"` is answered by strategy 1
on the fixture database. -/
theorem c4_tier_short_circuit_witness :
    search dbMain zeroRank (some "acte test") 10 true =
      Except.ok ((tier1 dbMain zeroRank ["acte", "test"] 10 true).map
        (enrichRow dbMain)) :=
  (c4_tier_short_circuit dbMain zeroRank (some "acte test") 10 true).2.1
    ["acte", "test"] (by decide) (by decide) (by decide)

/-- Strategy-1 results under `activeOnly` have no end date. -/
theorem tier1_active {db : DB} {rankFn : CcamCode → Int}
    {tokens : List String} {limit : Nat} {r : CcamCode}
    (h : r ∈ tier1 db rankFn tokens limit true) : r.dateEnd = none := by
  have h1 := (List.mem_insertionSort _).mp (List.mem_of_mem_take h)
  have h2 := (List.mem_filter.mp h1).2
  simp [activeFilter, Option.isNone_iff_eq_none] at h2
  exact h2.2

/-- Strategy-2 results under `activeOnly` have no end date. -/
theorem tier2_active {db : DB} {rankFn : CcamCode → Int}
    {tokens : List String} {limit : Nat} {r : CcamCode}
    (h : r ∈ tier2 db rankFn tokens limit true) : r.dateEnd = none := by
  have h1 := (List.mem_insertionSort _).mp (List.mem_of_mem_take h)
  have h2 := (List.mem_filter.mp h1).2
  simp [activeFilter, Option.isNone_iff_eq_none] at h2
  exact h2.2

/-- Strategy-3 results under `activeOnly` have no end date. -/
theorem tier3_active {db : DB} {tokens : List String} {limit : Nat}
    {r : CcamCode} (h : r ∈ tier3 db tokens limit true) : r.dateEnd = none := by
  have h1 := List.mem_of_mem_take h
  have h2 := (List.mem_filter.mp h1).2
  simp [activeFilter, Option.isNone_iff_eq_none] at h2
  exact h2.2

/-- C7.  Whatever strategy produced the result, a search with
`activeOnly = true` never returns an entry with a non-null end date: the
`date_end IS NULL` filter is present in all three strategies. -/
theorem c7_active_only_no_expired (db : DB) (rankFn : CcamCode → Int)
    (q : Option String) (limit : Nat) (rows : List SearchRow)
    (h : search db rankFn q limit true = Except.ok rows) :
    ∀ r ∈ rows, r.entry.dateEnd = none := by
  intro r hr
  cases q with
  | none =>
      have h' : (Except.error "AttributeError" : Except String (List SearchRow)) =
          Except.ok rows := h
      simp at h'
  | some s =>
      rw [search_some] at h
      by_cases he : (normalizeTokens s).isEmpty
      · rw [if_pos he] at h
        injection h with h2
        rw [← h2] at hr
        simp at hr
      · rw [if_neg he] at h
        injection h with h2
        rw [← h2] at hr
        rcases List.mem_map.mp hr with ⟨x, hx, hxe⟩
        have hde : x.dateEnd = none := by
          rcases searchResults_cases db rankFn (normalizeTokens s) limit true
            with hc | hc | hc
          · rw [hc] at hx
            exact tier1_active hx
          · rw [hc] at hx
            exact tier2_active hx
          · rw [hc] at hx
            exact tier3_active hx
        rw [← hxe]
        exact hde

/-- C7, witness: the fixture search returns `AAAA001`, an entry with no end
date. -/
theorem c7_active_only_no_expired_witness :
    (⟨rowA, 1⟩ : SearchRow).entry.dateEnd = none :=
  c7_active_only_no_expired dbMain zeroRank (some "acte test") 10
    [⟨rowA, 1⟩] (by decide) ⟨rowA, 1⟩ (by decide)

/-- C6, counterexample.  Over `dbDup`, where `BBBB002` is an official target
of `AAAA001` under two activities and also an observed association, the
assembled plan lists `BBBB002` twice in the gestures group (once per edge):
the target is kept out of the frequent group, but it is not listed "exactly
once". -/
theorem c6_counterexample :
    (get_billing_plan dbDup "AAAA001").map (fun p =>
      (p.complementaryGestures.map PlanItem.code,
       p.frequentAssociations.map FreqItem.code)) =
      some (["BBBB002", "BBBB002"], ["DDDD004"]) := by
  decide

/-- The official-association loop of the assembler: every produced item's
code is recorded in the collected official-code set, and the two groups
together contain exactly one item per input row. -/
theorem officialLoop_spec :
    ∀ rows : List (AssocEdge × Option CcamCode),
      (∀ item ∈ (officialLoop rows).1 ++ (officialLoop rows).2.1,
        item.code ∈ (officialLoop rows).2.2)
      ∧ (officialLoop rows).1.length + (officialLoop rows).2.1.length =
          rows.length := by
  intro rows
  induction rows with
  | nil => simp [officialLoop]
  | cons row rest ih =>
      obtain ⟨ih1, ih2⟩ := ih
      rcases hrest : officialLoop rest with ⟨g, rest2⟩
      rcases hrest2 : rest2 with ⟨an, oc⟩
      rw [hrest, hrest2] at ih1 ih2
      by_cases ht : (row.1.assocType == "complementary_anesthesia") = true
      · have hstep : officialLoop (row :: rest) =
            (g, planItemOf row :: an, row.1.associatedCode :: oc) := by
          simp [officialLoop, hrest, hrest2, ht]
        rw [hstep]
        constructor
        · intro item hitem
          rcases List.mem_append.mp hitem with hgi | hai
          · exact List.mem_cons_of_mem _ (ih1 item (List.mem_append.mpr (Or.inl hgi)))
          · rcases List.mem_cons.mp hai with hhead | htail
            · rw [hhead]
              exact List.mem_cons_self _ _
            · exact List.mem_cons_of_mem _
                (ih1 item (List.mem_append.mpr (Or.inr htail)))
        · dsimp only at ih2 ⊢
          simp only [List.length_cons]
          omega
      · have hstep : officialLoop (row :: rest) =
            (planItemOf row :: g, an, row.1.associatedCode :: oc) := by
          simp [officialLoop, hrest, hrest2, ht]
        rw [hstep]
        constructor
        · intro item hitem
          rcases List.mem_append.mp hitem with hgi | hai
          · rcases List.mem_cons.mp hgi with hhead | htail
            · rw [hhead]
              exact List.mem_cons_self _ _
            · exact List.mem_cons_of_mem _
                (ih1 item (List.mem_append.mpr (Or.inl htail)))
          · exact List.mem_cons_of_mem _ (ih1 item (List.mem_append.mpr (Or.inr hai)))
        · dsimp only at ih2 ⊢
          simp only [List.length_cons]
          omega

/-- C6, amended.  In every assembled billing plan, a target present in the
authoritative groups never also appears in the frequent group (the frequent
group excludes all official targets, and stays ordered by rank ascending),
and the authoritative groups carry exactly one item per `associations` row —
so a target with several official edges (distinct activities) is listed once
per edge, not exactly once. -/
theorem c6_frequent_excludes_official (db : DB) (code0 : String) (plan : Plan)
    (h : get_billing_plan db code0 = some plan) :
    (∀ f ∈ plan.frequentAssociations,
       ∀ g ∈ plan.complementaryGestures ++ plan.anesthesiaCodes,
         f.code ≠ g.code)
    ∧ List.Pairwise (fun a b => a.rank ≤ b.rank) plan.frequentAssociations
    ∧ plan.complementaryGestures.length + plan.anesthesiaCodes.length =
        (db.associations.filter (fun a => a.code == pyUpper code0)).length := by
  simp only [get_billing_plan] at h
  split at h
  · simp at h
  · rename_i main hmain
    rcases hloop : officialLoop
        (List.insertionSort (fun x y => officialLe x y = true)
          ((db.associations.filter (fun a => a.code == pyUpper code0)).map
            (fun a => (a, getCodeRow db a.associatedCode)))) with ⟨g, rest2⟩
    rcases hrest2 : rest2 with ⟨an, oc⟩
    rw [hloop, hrest2] at h
    injection h with h2
    subst h2
    have hspec := officialLoop_spec
      (List.insertionSort (fun x y => officialLe x y = true)
        ((db.associations.filter (fun a => a.code == pyUpper code0)).map
          (fun a => (a, getCodeRow db a.associatedCode))))
    rw [hloop, hrest2] at hspec
    refine ⟨?_, ?_, ?_⟩
    · intro f hf gi hgi
      rcases List.mem_map.mp hf with ⟨x, hx, hxe⟩
      have hxf := List.mem_filter.mp hx
      have hnc : oc.contains x.1.associatedCode = false := by
        have := hxf.2
        simp at this
        simpa using this
      have hgc : gi.code ∈ oc := hspec.1 gi hgi
      intro heq
      have hfc : f.code = x.1.associatedCode := by
        rw [← hxe]
      rw [hfc] at heq
      rw [← heq] at hgc
      exact absurd hgc (by simpa using hnc)
    · have hsorted : List.Pairwise
          (fun x y : FreqRow × Option CcamCode => x.1.rank ≤ y.1.rank)
          (List.insertionSort (fun x y => x.1.rank ≤ y.1.rank)
            ((db.frequentAssociations.filter
                (fun f => f.code == pyUpper code0)).map
              (fun f => (f, getCodeRow db f.associatedCode)))) := by
        haveI : IsTotal (FreqRow × Option CcamCode)
            (fun x y => x.1.rank ≤ y.1.rank) :=
          ⟨fun a b => Nat.le_total a.1.rank b.1.rank⟩
        haveI : IsTrans (FreqRow × Option CcamCode)
            (fun x y => x.1.rank ≤ y.1.rank) :=
          ⟨fun a b c hab hbc => Nat.le_trans hab hbc⟩
        have := List.sorted_insertionSort
          (fun x y : FreqRow × Option CcamCode => x.1.rank ≤ y.1.rank)
          ((db.frequentAssociations.filter
              (fun f => f.code == pyUpper code0)).map
            (fun f => (f, getCodeRow db f.associatedCode)))
        exact this
      have hfiltered := hsorted.filter
        (fun x => !oc.contains x.1.associatedCode)
      exact List.pairwise_map.mpr (hfiltered.imp (fun hxy => hxy))
    · have hlen := hspec.2
      rw [hlen]
      have hperm := List.perm_insertionSort (fun x y => officialLe x y = true)
        ((db.associations.filter (fun a => a.code == pyUpper code0)).map
          (fun a => (a, getCodeRow db a.associatedCode)))
      rw [hperm.length_eq, List.length_map]

/-- C6, witness: the fixture plan for `AAAA001` over `dbDup` has one
authoritative item per `associations` row. -/
theorem c6_frequent_excludes_official_witness :
    planDup.complementaryGestures.length + planDup.anesthesiaCodes.length =
      (dbDup.associations.filter (fun a => a.code == pyUpper "AAAA001")).length :=
  (c6_frequent_excludes_official dbDup "AAAA001" planDup (by decide)).2.2

/-- C2, counterexample.  With the raw candidate list
`[BBBB002, BBBB002, DDDD004]` for `AAAA001`, all three candidates survive
classification (N = 3), but `integrate` assigns ranks before the
`INSERT OR IGNORE` deduplication: the persisted rows carry ranks `[1, 3]`,
not `1..N` and not even contiguous. -/
theorem c2_counterexample :
    (validate cat2 [] scraped2).map (fun p => p.2.length) = [3]
    ∧ ((integrate (validate cat2 [] scraped2)).filter
        (fun r => r.code == "AAAA001")).map FreqRow.rank = [1, 3]
    ∧ ([1, 3] : List Nat) ≠ List.range' 1 3 := by
  refine ⟨by decide, by decide, by decide⟩

/-- One `INSERT OR IGNORE` either leaves the table unchanged or appends the
new row at the end. -/
theorem insertOrIgnoreFreq_cases (table : List FreqRow) (row : FreqRow) :
    insertOrIgnoreFreq table row = table ∨
    insertOrIgnoreFreq table row = table ++ [row] := by
  simp only [insertOrIgnoreFreq]
  by_cases hc : table.any (fun r => r.code == row.code &&
      r.associatedCode == row.associatedCode) = true
  · rw [if_pos hc]
    exact Or.inl rfl
  · rw [if_neg hc]
    exact Or.inr rfl

/-- A fold of `INSERT OR IGNORE` insertions appends a selection of the
inserted rows after the existing table. -/
theorem foldl_insertFreq_append {α : Type} (f : α → FreqRow) :
    ∀ (qs : List α) (table : List FreqRow),
      ∃ extra, qs.foldl (fun t q => insertOrIgnoreFreq t (f q)) table =
          table ++ extra
        ∧ ∀ r ∈ extra, ∃ q ∈ qs, r = f q := by
  intro qs
  induction qs with
  | nil =>
      intro table
      exact ⟨[], by simp⟩
  | cons q qs ih =>
      intro table
      rcases insertOrIgnoreFreq_cases table (f q) with hc | hc
      · obtain ⟨extra, he, hm⟩ := ih table
        refine ⟨extra, ?_, ?_⟩
        · rw [List.foldl_cons, hc]
          exact he
        · intro r hr
          obtain ⟨q2, hq2, hrq⟩ := hm r hr
          exact ⟨q2, List.mem_cons_of_mem _ hq2, hrq⟩
      · obtain ⟨extra, he, hm⟩ := ih (table ++ [f q])
        refine ⟨f q :: extra, ?_, ?_⟩
        · rw [List.foldl_cons, hc, he]
          simp
        · intro r hr
          rcases List.mem_cons.mp hr with h | h
          · exact ⟨q, List.mem_cons_self _ _, h⟩
          · obtain ⟨q2, hq2, hrq⟩ := hm r h
            exact ⟨q2, List.mem_cons_of_mem _ hq2, hrq⟩

/-- When neither the table nor the group itself repeats an ordered pair, the
enumerated insertion of one source code's group inserts every row. -/
theorem integrateGroup_full (s : String) :
    ∀ (l : List ValidAssoc) (n : Nat) (table : List FreqRow),
      (∀ r ∈ table, r.code = s → r.associatedCode ∉ l.map ValidAssoc.code) →
      (l.map ValidAssoc.code).Nodup →
      (l.enumFrom n).foldl
          (fun t q => insertOrIgnoreFreq t (freqRowOf s (q.1 + 1) q.2)) table =
        table ++ (l.enumFrom n).map (fun q => freqRowOf s (q.1 + 1) q.2) := by
  intro l
  induction l with
  | nil =>
      intro n table _ _
      simp [List.enumFrom]
  | cons a l ih =>
      intro n table htable hnodup
      have hany : (table.any (fun r => r.code == s &&
          r.associatedCode == a.code)) = false := by
        rw [List.any_eq_false]
        intro r hr
        simp only [Bool.and_eq_true, beq_iff_eq, not_and]
        intro hrc hra
        exact absurd (by simp [hra] : r.associatedCode ∈
          (a :: l).map ValidAssoc.code) (htable r hr hrc)
      have hany2 : (table.any (fun r =>
          r.code == (freqRowOf s (n + 1) a).code &&
          r.associatedCode == (freqRowOf s (n + 1) a).associatedCode)) = false :=
        hany
      have hstep : insertOrIgnoreFreq table (freqRowOf s (n + 1) a) =
          table ++ [freqRowOf s (n + 1) a] := by
        simp only [insertOrIgnoreFreq]
        rw [if_neg (by simp [hany2])]
      have htable' : ∀ r ∈ table ++ [freqRowOf s (n + 1) a], r.code = s →
          r.associatedCode ∉ l.map ValidAssoc.code := by
        intro r hr hrc
        rcases List.mem_append.mp hr with h | h
        · intro hmem
          exact htable r h hrc (by simp [hmem])
        · have hreq : r = freqRowOf s (n + 1) a := by simpa using h
          rw [hreq]
          intro hmem
          have h2 := hnodup
          simp only [List.map_cons, List.nodup_cons] at h2
          exact h2.1 (by simpa using hmem)
      have hnodup' : (l.map ValidAssoc.code).Nodup := by
        have h2 := hnodup
        simp only [List.map_cons, List.nodup_cons] at h2
        exact h2.2
      rw [show List.enumFrom n (a :: l) = (n, a) :: List.enumFrom (n + 1) l from rfl]
      rw [List.foldl_cons, hstep, ih (n + 1) _ htable' hnodup']
      simp

/-- Processing a list of groups appends only rows whose source code is one of
the groups' source codes. -/
theorem integrate_extra_codes :
    ∀ (vs : List (String × List ValidAssoc)) (table : List FreqRow),
      ∃ extra, vs.foldl (fun t p => integrateGroup t p.1 p.2) table =
          table ++ extra
        ∧ ∀ r ∈ extra, r.code ∈ vs.map Prod.fst := by
  intro vs
  induction vs with
  | nil =>
      intro table
      exact ⟨[], by simp⟩
  | cons p ps ih =>
      intro table
      obtain ⟨e1, he1, hm1⟩ := foldl_insertFreq_append
        (fun q : Nat × ValidAssoc => freqRowOf p.1 (q.1 + 1) q.2) p.2.enum table
      obtain ⟨e2, he2, hm2⟩ := ih (table ++ e1)
      refine ⟨e1 ++ e2, ?_, ?_⟩
      · rw [List.foldl_cons]
        rw [show integrateGroup table p.1 p.2 = table ++ e1 from he1, he2,
            List.append_assoc]
      · intro r hr
        rcases List.mem_append.mp hr with h | h
        · obtain ⟨q, _, hrq⟩ := hm1 r h
          rw [hrq]
          simp [freqRowOf]
        · exact List.mem_cons_of_mem _ (hm2 r h)

/-- The ranks carried by a fully inserted group are `1..N`. -/
theorem enumFrom_ranks (l : List ValidAssoc) (s : String) :
    ((l.enumFrom 0).map (fun q => freqRowOf s (q.1 + 1) q.2)).map FreqRow.rank =
      List.range' 1 l.length := by
  rw [List.map_map]
  have h1 : (FreqRow.rank ∘ fun q : Nat × ValidAssoc => freqRowOf s (q.1 + 1) q.2) =
      (fun x => x + 1) ∘ Prod.fst := rfl
  rw [h1, ← List.map_map, List.enumFrom_map_fst]
  rw [List.range'_eq_map_range 0, List.range'_eq_map_range 1, List.map_map]
  congr 1
  funext x
  simp [Function.comp]
  omega

/-- The fold of `integrate` over groups with pairwise-distinct source codes
and duplicate-free groups: the rows filtered to one source code carry
exactly the ranks `1..N` for that group's N candidates. -/
theorem integrate_ranks_aux :
    ∀ (vs : List (String × List ValidAssoc)) (table : List FreqRow),
      (vs.map Prod.fst).Nodup →
      (∀ p ∈ vs, (p.2.map ValidAssoc.code).Nodup) →
      (∀ r ∈ table, r.code ∉ vs.map Prod.fst) →
      ∀ p ∈ vs,
        ((vs.foldl (fun t q => integrateGroup t q.1 q.2) table).filter
          (fun r => r.code == p.1)).map FreqRow.rank =
          List.range' 1 p.2.length := by
  intro vs
  induction vs with
  | nil =>
      intro table _ _ _ p hp
      simp at hp
  | cons p0 ps ih =>
      intro table hkeys hgroups htable p hp
      have hk2 := hkeys
      simp only [List.map_cons, List.nodup_cons] at hk2
      have htab0 : ∀ r ∈ table, r.code = p0.1 →
          r.associatedCode ∉ p0.2.map ValidAssoc.code := by
        intro r hr hrc
        exact absurd (by simp [hrc] : r.code ∈ (p0 :: ps).map Prod.fst)
          (htable r hr)
      have hgroup0 := integrateGroup_full p0.1 p0.2 0 table htab0
        (hgroups p0 (by simp))
      obtain ⟨extra, hex, hmex⟩ := integrate_extra_codes ps
        (table ++ (p0.2.enumFrom 0).map (fun q => freqRowOf p0.1 (q.1 + 1) q.2))
      have hfold : (p0 :: ps).foldl (fun t q => integrateGroup t q.1 q.2) table =
          table ++ (p0.2.enumFrom 0).map (fun q => freqRowOf p0.1 (q.1 + 1) q.2)
            ++ extra := by
        rw [List.foldl_cons]
        rw [show integrateGroup table p0.1 p0.2 =
            table ++ (p0.2.enumFrom 0).map (fun q => freqRowOf p0.1 (q.1 + 1) q.2)
          from hgroup0]
        exact hex
      rcases List.mem_cons.mp hp with hp0 | hps
      · subst hp0
        rw [hfold, List.filter_append, List.filter_append]
        have hf1 : table.filter (fun r => r.code == p.1) = [] := by
          rw [List.filter_eq_nil_iff]
          intro r hr
          simp only [beq_iff_eq]
          intro hrc
          exact htable r hr (by simp [hrc])
        have hf2 : ((p.2.enumFrom 0).map
            (fun q => freqRowOf p.1 (q.1 + 1) q.2)).filter
              (fun r => r.code == p.1) =
            (p.2.enumFrom 0).map (fun q => freqRowOf p.1 (q.1 + 1) q.2) := by
          rw [List.filter_eq_self]
          intro r hr
          rcases List.mem_map.mp hr with ⟨q, _, hrq⟩
          rw [← hrq]
          simp [freqRowOf]
        have hf3 : extra.filter (fun r => r.code == p.1) = [] := by
          rw [List.filter_eq_nil_iff]
          intro r hr
          simp only [beq_iff_eq]
          intro hrc
          have hrc2 := hmex r hr
          rw [hrc] at hrc2
          exact hk2.1 hrc2
        rw [hf1, hf2, hf3]
        simp only [List.nil_append, List.append_nil]
        exact enumFrom_ranks p.2 p.1
      · have hkeys' := hk2.2
        have hp0nin := hk2.1
        have htable' : ∀ r ∈ table ++ (p0.2.enumFrom 0).map
            (fun q => freqRowOf p0.1 (q.1 + 1) q.2),
            r.code ∉ ps.map Prod.fst := by
          intro r hr
          rcases List.mem_append.mp hr with h | h
          · intro hc
            exact htable r h (by simp [hc])
          · rcases List.mem_map.mp h with ⟨q, _, hrq⟩
            rw [← hrq]
            simpa [freqRowOf] using hp0nin
        have hres := ih
          (table ++ (p0.2.enumFrom 0).map (fun q => freqRowOf p0.1 (q.1 + 1) q.2))
          hkeys' (fun x hx => hgroups x (List.mem_cons_of_mem _ hx)) htable' p hps
        rw [List.foldl_cons]
        rw [show integrateGroup table p0.1 p0.2 =
            table ++ (p0.2.enumFrom 0).map (fun q => freqRowOf p0.1 (q.1 + 1) q.2)
          from hgroup0]
        exact hres

/-- One `INSERT OR IGNORE` preserves pairwise distinctness of the ordered
`(code, associatedCode)` pairs. -/
theorem insertOrIgnoreFreq_pairwise {table : List FreqRow} {row : FreqRow}
    (h : List.Pairwise (fun r1 r2 : FreqRow => r1.code ≠ r2.code ∨
      r1.associatedCode ≠ r2.associatedCode) table) :
    List.Pairwise (fun r1 r2 : FreqRow => r1.code ≠ r2.code ∨
      r1.associatedCode ≠ r2.associatedCode) (insertOrIgnoreFreq table row) := by
  simp only [insertOrIgnoreFreq]
  by_cases hc : table.any (fun r => r.code == row.code &&
      r.associatedCode == row.associatedCode) = true
  · rw [if_pos hc]
    exact h
  · rw [if_neg hc]
    rw [List.pairwise_append]
    refine ⟨h, by simp, ?_⟩
    intro a ha b hb
    have hb' : b = row := by simpa using hb
    subst hb'
    have hcf : table.any (fun r => r.code == b.code &&
        r.associatedCode == b.associatedCode) = false :=
      Bool.eq_false_iff.mpr hc
    have hnot := List.any_eq_false.mp hcf a ha
    simp only [Bool.and_eq_true, beq_iff_eq, not_and] at hnot
    by_cases hcode : a.code = b.code
    · exact Or.inr (hnot hcode)
    · exact Or.inl hcode

/-- Folding `INSERT OR IGNORE` insertions preserves pairwise distinctness of
ordered pairs. -/
theorem foldl_insertFreq_pairwise {α : Type} (f : α → FreqRow) :
    ∀ (qs : List α) (table : List FreqRow),
      List.Pairwise (fun r1 r2 : FreqRow => r1.code ≠ r2.code ∨
        r1.associatedCode ≠ r2.associatedCode) table →
      List.Pairwise (fun r1 r2 : FreqRow => r1.code ≠ r2.code ∨
        r1.associatedCode ≠ r2.associatedCode)
        (qs.foldl (fun t q => insertOrIgnoreFreq t (f q)) table) := by
  intro qs
  induction qs with
  | nil =>
      intro table h
      exact h
  | cons q qs ih =>
      intro table h
      rw [List.foldl_cons]
      exact ih _ (insertOrIgnoreFreq_pairwise h)

/-- The whole integrated table has pairwise-distinct ordered pairs. -/
theorem integrate_pk_pairwise (validated : List (String × List ValidAssoc)) :
    List.Pairwise (fun r1 r2 : FreqRow => r1.code ≠ r2.code ∨
      r1.associatedCode ≠ r2.associatedCode) (integrate validated) := by
  suffices h : ∀ (vs : List (String × List ValidAssoc)) (table : List FreqRow),
      List.Pairwise (fun r1 r2 : FreqRow => r1.code ≠ r2.code ∨
        r1.associatedCode ≠ r2.associatedCode) table →
      List.Pairwise (fun r1 r2 : FreqRow => r1.code ≠ r2.code ∨
        r1.associatedCode ≠ r2.associatedCode)
        (vs.foldl (fun t p => integrateGroup t p.1 p.2) table) by
    exact h validated [] (by simp)
  intro vs
  induction vs with
  | nil =>
      intro table h
      exact h
  | cons p ps ih =>
      intro table h
      rw [List.foldl_cons]
      exact ih _ (foldl_insertFreq_pairwise
        (fun q : Nat × ValidAssoc => freqRowOf p.1 (q.1 + 1) q.2) p.2.enum table h)

/-- C2, amended.  The persisted `frequent_associations` rows always contain
at most one row per ordered `(code, associatedCode)` pair; and when every
source code's surviving candidate list has pairwise-distinct associated
codes (and source codes are distinct, as JSON object keys are), the rows of
each source code carry exactly the ranks `1..N`.  When the raw list repeats
a surviving associated code, only the first occurrence is persisted and the
recorded ranks may skip values (see the counterexample). -/
theorem c2_rank_contiguity (validated : List (String × List ValidAssoc))
    (hkeys : (validated.map Prod.fst).Nodup)
    (hgroups : ∀ p ∈ validated, (p.2.map ValidAssoc.code).Nodup) :
    List.Pairwise (fun r1 r2 : FreqRow => r1.code ≠ r2.code ∨
        r1.associatedCode ≠ r2.associatedCode)
      (integrate validated)
    ∧ ∀ p ∈ validated,
        ((integrate validated).filter (fun r => r.code == p.1)).map FreqRow.rank =
          List.range' 1 p.2.length := by
  constructor
  · exact integrate_pk_pairwise validated
  · intro p hp
    exact integrate_ranks_aux validated [] hkeys hgroups (by simp) p hp

/-- C2, witness: with the duplicate-free candidate list `[BBBB002, DDDD004]`
the persisted ranks for `AAAA001` are exactly `1..2`. -/
theorem c2_rank_contiguity_witness :
    ((integrate (validate cat2 [] scraped3)).filter
      (fun r => r.code == "AAAA001")).map FreqRow.rank = List.range' 1 2 :=
  (c2_rank_contiguity (validate cat2 [] scraped3) (by decide) (by decide)).2
    ("AAAA001",
      [ { code := "BBBB002", label := "Geste complementaire"
          icrPublic := some 5, confidence := Confidence.sameChapter }
      , { code := "DDDD004", label := "Autre acte"
          icrPublic := some 3, confidence := Confidence.sameChapter } ])
    (by decide)

end T2A
